import Mathlib

/-!
# Verification of the iptables_reporter log analyzer

A shallow embedding of `src/main.rs` (the single source file of the
repository) and proofs about it.

Modelling conventions:

* Rust `String`/`&str` values become Lean `String`; the character-level
  operations (`split_whitespace`, `contains`, `split('=')`,
  `trim_end_matches(':')`) are re-implemented over `String.data`
  (`List Char`) so that everything reduces inside the kernel.
  Rust's `split_whitespace` splits on Unicode whitespace; the model uses
  `Char.isWhitespace` (space, tab, CR, LF), which agrees on the ASCII
  log lines the program targets.
* `chrono::DateTime<Utc>` becomes a pair of seconds-since-epoch (`Int`)
  and subsecond nanoseconds (`Nat`).  `Timelike::hour` becomes `DateTime.hour`.
* `DateTime::parse_from_str(ts, "%Y-%m-%dT%H:%M:%S%.f%z")` followed by
  `with_timezone(&Utc)` is modelled by `parseTimestampUtc`, a parser for
  exactly that format (sign-extended year, 1-2 digit month/day/hour/
  minute/second with calendar validation, optional fractional part
  introduced by a dot, mandatory `±HH:MM`/`±HHMM` offset) converting to
  UTC with the standard days-from-civil-date algorithm.  Extreme years
  outside chrono's supported range and leap seconds are not modelled.
* `Utc::now()` (used as fallback when the timestamp token fails to
  parse) is a side effect; the per-line parser therefore takes the
  current wall-clock time as an explicit `now : DateTime` argument.
* `std::collections::HashMap` becomes an association list with unique
  keys kept in first-insertion order; `*map.entry(k).or_insert(0) += 1`
  becomes `bump`, and `map.get(&k)` becomes `lookupKey`.  A `HashMap`'s
  iteration order is unspecified, so wherever the source iterates a map
  (`dest_ip_counts.into_iter()` feeding the `top_dest_ips` sort) the
  enumeration is an explicit parameter, constrained in the theorems to
  be a permutation of the map's contents.
* `Vec::sort_by(|a, b| b.1.cmp(&a.1))` (a stable sort, descending by
  the count component) becomes the stable insertion sort
  `sortByCountDesc`.
* `println!` output is modelled as a `List String` of printed lines; a
  trailing `\n` inside a format string contributes an extra empty line.
-/

/-- Model of `chrono::DateTime<Utc>`: seconds since the Unix epoch plus
subsecond nanoseconds. -/
structure DateTime where
  secs : Int
  nanos : Nat
deriving DecidableEq, Repr

/-- Model of `Timelike::hour` on a UTC datetime: the hour-of-day
component, always in `0..24`. -/
def DateTime.hour (dt : DateTime) : Nat := ((dt.secs % 86400) / 3600).toNat

/-- `leadsWith pat s` is true when `pat` is an initial segment of `s`
(char-level model of `str::starts_with`, used to model `str::contains`). -/
def leadsWith : List Char → List Char → Bool
  | [], _ => true
  | _ :: _, [] => false
  | p :: ps, c :: cs => p == c && leadsWith ps cs

/-- `containsSub pat s` is true when `pat` occurs contiguously in `s`. -/
def containsSub (pat : List Char) : List Char → Bool
  | [] => leadsWith pat []
  | c :: t => leadsWith pat (c :: t) || containsSub pat t

/-- Model of Rust `str::contains(pattern)` for string patterns. -/
def containsSubstr (s pat : String) : Bool := containsSub pat.data s.data

/-- Accumulator-style splitter on whitespace; model of
`str::split_whitespace` (empty pieces are never produced). -/
def wsSplitAux : List Char → List Char → List (List Char)
  | [], cur => if cur = [] then [] else [cur.reverse]
  | c :: rest, cur =>
    if c.isWhitespace then
      if cur = [] then wsSplitAux rest []
      else cur.reverse :: wsSplitAux rest []
    else wsSplitAux rest (c :: cur)

/-- Model of Rust `str::split_whitespace().collect::<Vec<_>>()`. -/
def splitWhitespace (s : String) : List String :=
  (wsSplitAux s.data []).map String.mk

/-- Model of Rust `str::split(sep)`: splits at every occurrence of the
separator character, keeping empty pieces (always at least one piece). -/
def splitCharAux (sep : Char) : List Char → List Char → List (List Char)
  | [], cur => [cur.reverse]
  | c :: rest, cur =>
    if c = sep then cur.reverse :: splitCharAux sep rest []
    else splitCharAux sep rest (c :: cur)

/-- The key/value view of one token, modelling
`part.contains('=')` followed by `split('=')` with the first two pieces
taken (`kv.next()` twice): `"SRC=1.2.3.4"` yields `("SRC", "1.2.3.4")`,
a token without `=` yields `none`.  Both pieces may be empty. -/
def kvOf (part : String) : Option (String × String) :=
  match splitCharAux '=' part.data [] with
  | k :: v :: _ => some (String.mk k, String.mk v)
  | _ => none

/-- Model of `str::trim_end_matches(':')`: strips every trailing colon. -/
def trimTrailingColons (s : String) : String :=
  String.mk ((s.data.reverse.dropWhile (fun c => c = ':')).reverse)

/-- Digits-to-number conversion (most significant first). -/
def natOfDigits (l : List Char) : Nat :=
  l.foldl (fun a c => a * 10 + (c.toNat - 48)) 0

/-- Model of Rust `str::parse::<u16>()`: an optional leading `+`, then
one or more ASCII digits, value at most `65535`; anything else fails. -/
def parseU16 (s : String) : Option Nat :=
  let cs := match s.data with
    | '+' :: rest => rest
    | cs => cs
  if cs = [] then none
  else if cs.all (fun c => c.isDigit) then
    let v := natOfDigits cs
    if v ≤ 65535 then some v else none
  else none

/-- Greedily take leading digits. -/
def takeDigits : List Char → List Char × List Char
  | [] => ([], [])
  | c :: cs =>
    if c.isDigit then
      let (d, r) := takeDigits cs
      (c :: d, r)
    else ([], c :: cs)

/-- Take at most `n` leading digits. -/
def takeDigitsUpTo : Nat → List Char → List Char × List Char
  | 0, cs => ([], cs)
  | _ + 1, [] => ([], [])
  | n + 1, c :: cs =>
    if c.isDigit then
      let (d, r) := takeDigitsUpTo n cs
      (c :: d, r)
    else ([], c :: cs)

/-- Expect one specific character. -/
def expectChar (c : Char) : List Char → Option (List Char)
  | x :: rest => if x = c then some rest else none
  | [] => none

/-- Proleptic-Gregorian leap-year rule. -/
def isLeapYear (y : Int) : Bool :=
  (y % 4 == 0 && !(y % 100 == 0)) || y % 400 == 0

/-- Days in a month of the proleptic Gregorian calendar (month `1..12`). -/
def daysInMonth (y : Int) (m : Nat) : Nat :=
  match m with
  | 1 => 31
  | 2 => if isLeapYear y then 29 else 28
  | 3 => 31
  | 4 => 30
  | 5 => 31
  | 6 => 30
  | 7 => 31
  | 8 => 31
  | 9 => 30
  | 10 => 31
  | 11 => 30
  | 12 => 31
  | _ => 0

/-- Days since 1970-01-01 of a civil date (standard days-from-civil
algorithm; `Int` division is Euclidean, which on a positive divisor is
floor division, matching the algorithm's requirements). -/
def daysFromCivil (y : Int) (m d : Nat) : Int :=
  let y : Int := if m ≤ 2 then y - 1 else y
  let era : Int := y / 400
  let yoe : Int := y - era * 400
  let mp : Nat := (m + 9) % 12
  let doy : Nat := (153 * mp + 2) / 5 + d - 1
  let doe : Int := yoe * 365 + yoe / 4 - yoe / 100 + (doy : Int)
  era * 146097 + doe - 719468

/-- Nanoseconds denoted by a fractional-second digit string (first nine
digits, right-padded with zeros). -/
def nanosOfFrac (l : List Char) : Nat :=
  let d := l.take 9
  natOfDigits (d ++ List.replicate (9 - d.length) '0')

/-- Parse the `%Y` field: an optional sign followed by digits. -/
def parseYear (cs : List Char) : Option (Int × List Char) :=
  let (negYear, cs) :=
    match cs with
    | '-' :: rest => (true, rest)
    | '+' :: rest => (false, rest)
    | _ => (false, cs)
  let (yds, rest) := takeDigits cs
  if yds = [] then none
  else
    some (if negYear then -(natOfDigits yds : Int) else (natOfDigits yds : Int), rest)

/-- Parse a 1-2 digit numeric field whose value must lie in
`[lo, hi]`. -/
def parseNum2 (lo hi : Nat) (cs : List Char) : Option (Nat × List Char) :=
  let (ds, rest) := takeDigitsUpTo 2 cs
  if ds = [] then none
  else
    let v := natOfDigits ds
    if lo ≤ v ∧ v ≤ hi then some (v, rest) else none

/-- Parse the `%.f` field: optional; a dot must be followed by at least
one digit, yielding nanoseconds. -/
def parseFrac (cs : List Char) : Option (Nat × List Char) :=
  match cs with
  | '.' :: rest =>
    let (fds, rest') := takeDigits rest
    if fds = [] then none else some (nanosOfFrac fds, rest')
  | _ => some (0, cs)

/-- Parse the `%z` field: `±HH:MM` or `±HHMM`, yielding the offset in
seconds (bounded below a day, as chrono requires). -/
def parseOffset (cs : List Char) : Option (Int × List Char) :=
  let signed : Option (Bool × List Char) :=
    match cs with
    | '+' :: rest => some (false, rest)
    | '-' :: rest => some (true, rest)
    | _ => none
  match signed with
  | none => none
  | some (negOff, cs) =>
    let (ohds, cs) := takeDigitsUpTo 2 cs
    if ohds.length = 2 then
      let cs :=
        match cs with
        | ':' :: rest => rest
        | _ => cs
      let (omds, cs) := takeDigitsUpTo 2 cs
      if omds.length = 2 then
        let offMin := natOfDigits ohds * 60 + natOfDigits omds
        if offMin * 60 < 86400 then
          some (if negOff then -(offMin * 60 : Int) else (offMin * 60 : Int), cs)
        else none
      else none
    else none

/-- Parse `%d-%dT` (month, day) given the year, validating against the
calendar. -/
def parseMonthDay (year : Int) (cs : List Char) : Option (Nat × Nat × List Char) :=
  match parseNum2 1 12 cs with
  | none => none
  | some (month, cs) =>
    match expectChar '-' cs with
    | none => none
    | some cs =>
      match parseNum2 1 (daysInMonth year month) cs with
      | none => none
      | some (day, cs) => some (month, day, cs)

/-- Parse `HH:MM:SS` as seconds-of-day. -/
def parseTimeOfDay (cs : List Char) : Option (Nat × List Char) :=
  match parseNum2 0 23 cs with
  | none => none
  | some (hh, cs) =>
    match expectChar ':' cs with
    | none => none
    | some cs =>
      match parseNum2 0 59 cs with
      | none => none
      | some (mi, cs) =>
        match expectChar ':' cs with
        | none => none
        | some cs =>
          match parseNum2 0 59 cs with
          | none => none
          | some (ss, cs) => some (hh * 3600 + mi * 60 + ss, cs)

/-- Model of
`DateTime::parse_from_str(s, "%Y-%m-%dT%H:%M:%S%.f%z").map(|dt| dt.with_timezone(&Utc))`:
parses an ISO-8601-like timestamp with fractional seconds and a numeric
timezone offset and converts it to UTC.  Fails (like the Rust call) on
any input not of the expected shape. -/
def parseTimestampUtc (s : String) : Option DateTime :=
  match parseYear s.data with
  | none => none
  | some (year, cs) =>
    match expectChar '-' cs with
    | none => none
    | some cs =>
      match parseMonthDay year cs with
      | none => none
      | some (month, day, cs) =>
        match expectChar 'T' cs with
        | none => none
        | some cs =>
          match parseTimeOfDay cs with
          | none => none
          | some (sod, cs) =>
            match parseFrac cs with
            | none => none
            | some (nanos, cs) =>
              match parseOffset cs with
              | none => none
              | some (offSecs, cs) =>
                if cs = [] then
                  some ⟨daysFromCivil year month day * 86400 + (sod : Int) - offSecs, nanos⟩
                else none

/-- Model of the `IptablesEntry` struct of `src/main.rs`. -/
structure IptablesEntry where
  timestamp : DateTime
  source_ip : String
  dest_ip : String
  dest_port : Option Nat
  protocol : String
  interface : Option String
  chain : String
  action : String
deriving DecidableEq, Repr

/-- The mutable locals of the per-line key/value scan in
`parse_log_file` (`source_ip`, `dest_ip`, `protocol`, `interface`,
`dest_port` before the final validation). -/
structure ScanState where
  source_ip : String
  dest_ip : String
  protocol : String
  interface : Option String
  dest_port : Option Nat
deriving DecidableEq, Repr

/-- Initial scan state (`String::new()` / `None`). -/
def initScan : ScanState := ⟨"", "", "", none, none⟩

/-- One iteration of the `for part in &parts` loop of
`parse_log_file`: recognize `KEY=VALUE` tokens and update the state. -/
def scanPart (acc : ScanState) (part : String) : ScanState :=
  match kvOf part with
  | none => acc
  | some (key, value) =>
    if key = "SRC" then { acc with source_ip := value }
    else if key = "DST" then { acc with dest_ip := value }
    else if key = "PROTO" then { acc with protocol := value }
    else if key = "OUT" then
      if value ≠ "" then { acc with interface := some value } else acc
    else if key = "DPT" then { acc with dest_port := parseU16 value }
    else acc

/-- The per-line body of `parse_log_file` in `src/main.rs`: zero or one
entry per input line.  `now` stands for `Utc::now()`, the fallback used
when the timestamp token fails to parse. -/
def parseLine (now : DateTime) (line : String) : Option IptablesEntry :=
  if !(containsSubstr line "kernel:") || !(containsSubstr line "DROP_IPV4") then none
  else
    let parts := splitWhitespace line
    if parts.length < 6 then none
    else
      let timestamp := (parseTimestampUtc (parts.getD 0 "")).getD now
      let chain := trimTrailingColons (parts.getD 3 "")
      let st := parts.foldl scanPart initScan
      if st.source_ip ≠ "" ∧ st.dest_ip ≠ "" ∧ st.protocol ≠ "" then
        some
          { timestamp := timestamp
            source_ip := st.source_ip
            dest_ip := st.dest_ip
            dest_port := st.dest_port
            protocol := st.protocol
            interface := st.interface
            chain := chain
            action := "DENIED" }
      else none

/-- `parse_log_file` over a whole log: the surviving entries of each
line in order (file I/O errors are outside the model). -/
def parseLogLines (now : DateTime) (lines : List String) : List IptablesEntry :=
  lines.filterMap (parseLine now)

/-- Model of `*map.entry(k).or_insert(0) += 1` on a `HashMap` whose
contents are represented as an association list with unique keys in
first-insertion order: increment the count of `k`, appending a fresh
`(k, 1)` entry when `k` is new. -/
def bump {α : Type} [DecidableEq α] (k : α) : List (α × Nat) → List (α × Nat)
  | [] => [(k, 1)]
  | (k', v) :: rest => if k' = k then (k', v + 1) :: rest else (k', v) :: bump k rest

/-- The contents of the counting `HashMap` after one pass over `l`. -/
def countsOf {α : Type} [DecidableEq α] (l : List α) : List (α × Nat) :=
  l.foldl (fun m k => bump k m) []

/-- Model of `HashMap::get(&k)` on the association-list representation. -/
def lookupKey {α : Type} [DecidableEq α] (k : α) : List (α × Nat) → Option Nat
  | [] => none
  | (k', v) :: rest => if k' = k then some v else lookupKey k rest

/-- Sum of the counts of a distribution. -/
def sumValues {α : Type} (m : List (α × Nat)) : Nat := (m.map (fun p => p.2)).sum

/-- Insert `x` into a list sorted descending by count, before the first
element whose count is `≤ x`'s (so an element inserted later than its
equals stays after them: this is the stable-insertion step). -/
def insertByCountDesc {α : Type} (x : α × Nat) : List (α × Nat) → List (α × Nat)
  | [] => [x]
  | y :: ys => if y.2 ≤ x.2 then x :: y :: ys else y :: insertByCountDesc x ys

/-- Model of `Vec::sort_by(|a, b| b.1.cmp(&a.1))`: a stable sort,
descending by the count component (Rust's `sort_by` is stable; a stable
insertion sort has the same input/output behavior). -/
def sortByCountDesc {α : Type} : List (α × Nat) → List (α × Nat)
  | [] => []
  | x :: xs => insertByCountDesc x (sortByCountDesc xs)

/-- Model of the `AnalysisReport` struct of `src/main.rs`.  The
`HashMap`-valued fields are represented as association lists with
unique keys in first-insertion order. -/
structure AnalysisReport where
  total_denials : Nat
  top_dest_ips : List (String × Nat)
  protocol_distribution : List (String × Nat)
  port_distribution : List (Nat × Nat)
  chain_distribution : List (String × Nat)
  hourly_distribution : List (Nat × Nat)
  entries : List IptablesEntry
deriving DecidableEq, Repr

/-- The destination-address counting map of `analyze_entries`
(`dest_ip_counts` contents after the loop). -/
def destIpCounts (entries : List IptablesEntry) : List (String × Nat) :=
  countsOf (entries.map (fun e => e.dest_ip))

/-- Model of `analyze_entries` of `src/main.rs`.  The source builds the
five counting maps in a single loop; each map only depends on its own
projection of the entries, so they are modelled as independent passes.
`destEnum` stands for the sequence `dest_ip_counts.into_iter()` yields:
a `HashMap`'s iteration order is unspecified, so it is a parameter,
constrained in the theorems to be a permutation of the map's contents
(`destIpCounts entries` is the canonical first-insertion-order choice). -/
def analyzeEntries (entries : List IptablesEntry) (destEnum : List (String × Nat)) :
    AnalysisReport :=
  { total_denials := entries.length
    top_dest_ips := sortByCountDesc destEnum
    protocol_distribution := countsOf (entries.map (fun e => e.protocol))
    port_distribution := countsOf (entries.filterMap (fun e => e.dest_port))
    chain_distribution := countsOf (entries.map (fun e => e.chain))
    hourly_distribution := countsOf (entries.map (fun e => e.timestamp.hour))
    entries := entries }

/-- One line of the top-destinations block:
`println!("  {}: {} denials", ip, count)`. -/
def topDestLine (p : String × Nat) : String :=
  "  " ++ p.1 ++ ": " ++ toString p.2 ++ " denials"

/-- The destination lines of the "TOP N DESTINATION IPs" section:
`report.top_dest_ips.iter().take(top_n)`. -/
def topDestLines (r : AnalysisReport) (top_n : Nat) : List String :=
  (r.top_dest_ips.take top_n).map topDestLine

/-- The lines printed before the destination lines (header, total,
section title). -/
def headerLines (r : AnalysisReport) (top_n : Nat) : List String :=
  ["=== IPTABLES DENIAL REPORT ===", "",
   "Total denials: " ++ toString r.total_denials, "",
   "TOP " ++ toString top_n ++ " DESTINATION IPs (Attackers):"]

/-- One line of a label/count distribution block:
`println!("  {}: {}", label, count)`. -/
def distLine (label : String) (count : Nat) : String :=
  "  " ++ label ++ ": " ++ toString count

/-- The protocol-distribution lines (the model iterates the map in its
insertion order; the source's `HashMap` iteration order is unspecified). -/
def protocolLines (r : AnalysisReport) : List String :=
  r.protocol_distribution.map (fun p => distLine p.1 p.2)

/-- The port lines: ports sorted descending by count, first ten. -/
def portLines (r : AnalysisReport) : List String :=
  ((sortByCountDesc r.port_distribution).take 10).map
    (fun p => "  " ++ toString p.1 ++ ": " ++ toString p.2 ++ " denials")

/-- The port section, only rendered when the distribution is non-empty. -/
def portSection (r : AnalysisReport) : List String :=
  if r.port_distribution = [] then []
  else ["TOP DESTINATION PORTS:"] ++ portLines r ++ [""]

/-- The chain-distribution lines (same iteration-order caveat as the
protocol block). -/
def chainLines (r : AnalysisReport) : List String :=
  r.chain_distribution.map (fun p => distLine p.1 p.2)

/-- Zero-padded two-digit rendering of `{:02}`. -/
def pad2 (n : Nat) : String :=
  if n < 10 then "0" ++ toString n else toString n

/-- One line of the hourly block:
`println!("  {:02}:00: {} denials", hour, count)`. -/
def hourLine (h c : Nat) : String :=
  "  " ++ pad2 h ++ ":00: " ++ toString c ++ " denials"

/-- The hourly-distribution lines: `for hour in 0..24`, printing only
hours present in the map. -/
def hourlyLines (r : AnalysisReport) : List String :=
  (List.range 24).filterMap
    (fun h => (lookupKey h r.hourly_distribution).map (hourLine h))

/-- The hours that get a line in the hourly section. -/
def hourlyHours (r : AnalysisReport) : List Nat :=
  (List.range 24).filter (fun h => (lookupKey h r.hourly_distribution).isSome)

/-- Everything `print_text_report` prints after the destination lines. -/
def afterTopLines (r : AnalysisReport) : List String :=
  [""]
  ++ ["PROTOCOL DISTRIBUTION:"] ++ protocolLines r ++ [""]
  ++ portSection r
  ++ ["CHAIN DISTRIBUTION:"] ++ chainLines r ++ [""]
  ++ ["HOURLY DISTRIBUTION:"] ++ hourlyLines r

/-- Model of `print_text_report` of `src/main.rs`: the sequence of
printed lines. -/
def printTextReport (r : AnalysisReport) (top_n : Nat) : List String :=
  headerLines r top_n ++ topDestLines r top_n ++ afterTopLines r

/-- The value one token binds to `key`: its `KEY=VALUE` value when its
key is exactly `key`, otherwise nothing. -/
def kvValueFor (key : String) (p : String) : Option String :=
  match kvOf p with
  | some (k, v) => if k = key then some v else none
  | none => none

/-- The value a given key ends up bound to by the `KEY=VALUE` scan: the
value of the last token that binds `key` (later tokens override earlier
ones), or `none` when no token binds it.  This is the
specification-side description of what the `for part in &parts` loop
assigns. -/
def boundValue (key : String) : List String → Option String
  | [] => none
  | p :: rest =>
    match boundValue key rest with
    | some v => some v
    | none => kvValueFor key p

/-- Number of distinct destination addresses among the entries. -/
def distinctDestCount (entries : List IptablesEntry) : Nat :=
  ((entries.map (fun e => e.dest_ip)).dedup).length

/-- Replace the timestamp by a fixed value: the non-timestamp part of
an entry. -/
def stripTimestamp (e : IptablesEntry) : IptablesEntry :=
  { e with timestamp := ⟨0, 0⟩ }

/-- A concrete entry used by witnesses (hour 0, destination 10.0.0.1). -/
def sampleEntryA : IptablesEntry :=
  { timestamp := ⟨0, 0⟩
    source_ip := "9.9.9.9"
    dest_ip := "10.0.0.1"
    dest_port := none
    protocol := "TCP"
    interface := none
    chain := "INPUT"
    action := "DENIED" }

/-- A second concrete entry (hour 0, destination 10.0.0.2). -/
def sampleEntryB : IptablesEntry :=
  { sampleEntryA with dest_ip := "10.0.0.2", protocol := "UDP" }

/-- The spec's example log line (§8 of the specification document). -/
def sampleLine : String :=
  "2024-01-15T03:22:10.500+00:00 hostA kernel: INPUT: DROP_IPV4 IN=eth0 OUT= SRC=203.0.113.7 DST=10.0.0.5 PROTO=TCP SPT=4444 DPT=22"

/-- The example line with an out-of-range destination port. -/
def sampleLineBadPort : String :=
  "2024-01-15T03:22:10.500+00:00 hostA kernel: INPUT: DROP_IPV4 SRC=203.0.113.7 DST=10.0.0.5 PROTO=TCP DPT=99999"

/-- A candidate line whose timestamp token does not parse. -/
def sampleLineBadTime : String :=
  "badtime hostA kernel: INPUT: DROP_IPV4 SRC=1.2.3.4 DST=5.6.7.8 PROTO=TCP"

/-! ## Lemmas about the stable descending sort -/

theorem insertByCountDesc_perm {α : Type} (x : α × Nat) (l : List (α × Nat)) :
    (insertByCountDesc x l).Perm (x :: l) := by
  induction l with
  | nil => simp [insertByCountDesc]
  | cons y ys ih =>
    simp only [insertByCountDesc]
    split
    · exact List.Perm.refl _
    · exact (ih.cons y).trans (List.Perm.swap x y ys)

theorem sortByCountDesc_perm {α : Type} (l : List (α × Nat)) :
    (sortByCountDesc l).Perm l := by
  induction l with
  | nil => exact List.Perm.refl _
  | cons x xs ih =>
    exact (insertByCountDesc_perm x (sortByCountDesc xs)).trans (ih.cons x)

theorem sortByCountDesc_length {α : Type} (l : List (α × Nat)) :
    (sortByCountDesc l).length = l.length :=
  (sortByCountDesc_perm l).length_eq

theorem insertByCountDesc_pairwise {α : Type} (x : α × Nat) (l : List (α × Nat))
    (h : l.Pairwise (fun a b => b.2 ≤ a.2)) :
    (insertByCountDesc x l).Pairwise (fun a b => b.2 ≤ a.2) := by
  induction l with
  | nil => simp [insertByCountDesc]
  | cons y ys ih =>
    have hy := List.pairwise_cons.1 h
    simp only [insertByCountDesc]
    split
    · rename_i hle
      refine List.Pairwise.cons (fun z hz => ?_) h
      rcases List.mem_cons.1 hz with rfl | hz'
      · exact hle
      · exact le_trans (hy.1 z hz') hle
    · rename_i hgt
      refine List.Pairwise.cons (fun z hz => ?_) (ih hy.2)
      have hmem := (insertByCountDesc_perm x ys).mem_iff.1 hz
      rcases List.mem_cons.1 hmem with rfl | hz'
      · exact Nat.le_of_lt (Nat.lt_of_not_le hgt)
      · exact hy.1 z hz'

theorem sortByCountDesc_pairwise {α : Type} (l : List (α × Nat)) :
    (sortByCountDesc l).Pairwise (fun a b => b.2 ≤ a.2) := by
  induction l with
  | nil => simp [sortByCountDesc]
  | cons x xs ih => exact insertByCountDesc_pairwise x _ ih

theorem filter_insertByCountDesc {α : Type} (x : α × Nat) (l : List (α × Nat)) (c : Nat) :
    (insertByCountDesc x l).filter (fun q => q.2 == c) =
      if x.2 = c then x :: l.filter (fun q => q.2 == c)
      else l.filter (fun q => q.2 == c) := by
  induction l with
  | nil => by_cases hx : x.2 = c <;> simp [insertByCountDesc, hx]
  | cons y ys ih =>
    simp only [insertByCountDesc]
    split
    · by_cases hx : x.2 = c <;> simp [List.filter_cons, hx]
    · rename_i hgt
      have hxy := Nat.lt_of_not_le hgt
      by_cases hx : x.2 = c
      · have hyne : ¬ y.2 = c := by omega
        simp [List.filter_cons, hx, hyne, ih]
      · by_cases hyc : y.2 = c <;> simp [List.filter_cons, hx, hyc, ih]

theorem filter_sortByCountDesc {α : Type} (l : List (α × Nat)) (c : Nat) :
    (sortByCountDesc l).filter (fun q => q.2 == c) = l.filter (fun q => q.2 == c) := by
  induction l with
  | nil => rfl
  | cons x xs ih =>
    simp only [sortByCountDesc, filter_insertByCountDesc, ih, List.filter_cons]
    by_cases hx : x.2 = c <;> simp [hx]

/-! ## Lemmas about the counting maps -/

theorem sumValues_bump {α : Type} [DecidableEq α] (k : α) (m : List (α × Nat)) :
    sumValues (bump k m) = sumValues m + 1 := by
  induction m with
  | nil => simp [bump, sumValues]
  | cons p rest ih =>
    obtain ⟨k', v⟩ := p
    simp only [bump]
    split <;> simp [sumValues] at ih ⊢ <;> omega

theorem sumValues_foldl_bump {α : Type} [DecidableEq α] (l : List α) (m : List (α × Nat)) :
    sumValues (l.foldl (fun m k => bump k m) m) = sumValues m + l.length := by
  induction l generalizing m with
  | nil => simp
  | cons x xs ih =>
    simp only [List.foldl_cons, List.length_cons]
    rw [ih, sumValues_bump]
    omega

theorem sumValues_countsOf {α : Type} [DecidableEq α] (l : List α) :
    sumValues (countsOf l) = l.length := by
  have h := sumValues_foldl_bump l []
  simpa [countsOf, sumValues] using h

theorem lookupKey_bump {α : Type} [DecidableEq α] (k k' : α) (m : List (α × Nat)) :
    lookupKey k (bump k' m) =
      if k' = k then some ((lookupKey k m).getD 0 + 1) else lookupKey k m := by
  induction m with
  | nil => by_cases h : k' = k <;> simp [bump, lookupKey, h]
  | cons p rest ih =>
    obtain ⟨a, v⟩ := p
    simp only [bump]
    by_cases h1 : a = k' <;> by_cases h2 : a = k <;> by_cases h3 : k' = k <;>
      simp_all [bump, lookupKey]

theorem lookupKey_foldl_bump {α : Type} [DecidableEq α] (l : List α) (m : List (α × Nat))
    (k : α) :
    lookupKey k (l.foldl (fun m k => bump k m) m) =
      if l.count k = 0 then lookupKey k m
      else some ((lookupKey k m).getD 0 + l.count k) := by
  induction l generalizing m with
  | nil => simp
  | cons x xs ih =>
    simp only [List.foldl_cons, List.count_cons]
    rw [ih, lookupKey_bump]
    by_cases hx : x = k
    · simp only [hx, if_pos rfl, beq_self_eq_true, if_pos]
      by_cases hc : xs.count k = 0
      · simp [hc]
      · simp [hc]
        omega
    · have : (x == k) = false := beq_false_of_ne hx
      simp [hx, this]

theorem lookupKey_countsOf {α : Type} [DecidableEq α] (l : List α) (k : α) :
    lookupKey k (countsOf l) = if l.count k = 0 then none else some (l.count k) := by
  have h := lookupKey_foldl_bump l [] k
  simp only [countsOf]
  rw [h]
  by_cases hc : l.count k = 0 <;> simp [hc, lookupKey]

theorem keys_bump {α : Type} [DecidableEq α] (k : α) (m : List (α × Nat)) :
    (bump k m).map Prod.fst =
      if k ∈ m.map Prod.fst then m.map Prod.fst else m.map Prod.fst ++ [k] := by
  induction m with
  | nil => simp [bump]
  | cons p rest ih =>
    obtain ⟨a, v⟩ := p
    simp only [bump]
    by_cases h : a = k
    · simp [h]
    · by_cases hm : k ∈ rest.map Prod.fst <;>
        simp [h, Ne.symm h, hm, ih, List.mem_cons]

theorem nodup_keys_bump {α : Type} [DecidableEq α] (k : α) (m : List (α × Nat))
    (h : (m.map Prod.fst).Nodup) : ((bump k m).map Prod.fst).Nodup := by
  rw [keys_bump]
  split
  · exact h
  · rename_i hmem
    refine List.Nodup.append h (List.nodup_singleton k) ?_
    intro a ha hb
    rw [List.mem_singleton] at hb
    exact hmem (hb ▸ ha)

theorem nodup_keys_foldl_bump {α : Type} [DecidableEq α] (l : List α) (m : List (α × Nat))
    (h : (m.map Prod.fst).Nodup) :
    ((l.foldl (fun m k => bump k m) m).map Prod.fst).Nodup := by
  induction l generalizing m with
  | nil => simpa
  | cons x xs ih => exact ih _ (nodup_keys_bump x m h)

theorem nodup_keys_countsOf {α : Type} [DecidableEq α] (l : List α) :
    ((countsOf l).map Prod.fst).Nodup :=
  nodup_keys_foldl_bump l [] (by simp)

theorem lookupKey_isSome_iff_mem_keys {α : Type} [DecidableEq α] (a : α)
    (m : List (α × Nat)) :
    (lookupKey a m).isSome = true ↔ a ∈ m.map Prod.fst := by
  induction m with
  | nil => simp [lookupKey]
  | cons p rest ih =>
    obtain ⟨b, v⟩ := p
    by_cases h : b = a
    · simp [lookupKey, h]
    · simp [lookupKey, h, Ne.symm h, ih]

theorem mem_keys_countsOf {α : Type} [DecidableEq α] (l : List α) (a : α) :
    a ∈ (countsOf l).map Prod.fst ↔ a ∈ l := by
  rw [← lookupKey_isSome_iff_mem_keys, lookupKey_countsOf]
  by_cases hc : l.count a = 0
  · simp [hc, List.count_eq_zero.1 hc]
  · simp only [hc, if_neg, Option.isSome_some, true_iff]
    simpa using List.count_pos_iff.1 (Nat.pos_of_ne_zero hc)

theorem length_countsOf_eq_length_dedup {α : Type} [DecidableEq α] (l : List α) :
    (countsOf l).length = l.dedup.length := by
  have h1 : ((countsOf l).map Prod.fst).Nodup := nodup_keys_countsOf l
  have h2 : l.dedup.Nodup := List.nodup_dedup l
  have h3 : ((countsOf l).map Prod.fst).toFinset = l.dedup.toFinset := by
    apply Finset.ext
    intro a
    rw [List.mem_toFinset, List.mem_toFinset, mem_keys_countsOf, List.mem_dedup]
  have h4 := List.perm_of_nodup_nodup_toFinset_eq h1 h2 h3
  simpa using h4.length_eq

/-! ## Lemmas relating the key/value scan to `boundValue` -/

theorem scanPart_fields (acc : ScanState) (p : String) :
    (scanPart acc p).source_ip = (kvValueFor "SRC" p).getD acc.source_ip ∧
    (scanPart acc p).dest_ip = (kvValueFor "DST" p).getD acc.dest_ip ∧
    (scanPart acc p).protocol = (kvValueFor "PROTO" p).getD acc.protocol ∧
    (scanPart acc p).dest_port =
      (match kvValueFor "DPT" p with
       | some v => parseU16 v
       | none => acc.dest_port) := by
  unfold scanPart kvValueFor
  rcases kvOf p with _ | ⟨k, v⟩
  · simp
  · by_cases h1 : k = "SRC"
    · simp [h1]
    · by_cases h2 : k = "DST"
      · simp [h1, h2]
      · by_cases h3 : k = "PROTO"
        · simp [h1, h2, h3]
        · by_cases h4 : k = "OUT"
          · by_cases hv : v = "" <;> simp [h1, h2, h3, h4, hv]
          · by_cases h5 : k = "DPT" <;> simp [h1, h2, h3, h4, h5]

theorem foldl_scanPart_fields (parts : List String) (acc : ScanState) :
    (parts.foldl scanPart acc).source_ip = (boundValue "SRC" parts).getD acc.source_ip ∧
    (parts.foldl scanPart acc).dest_ip = (boundValue "DST" parts).getD acc.dest_ip ∧
    (parts.foldl scanPart acc).protocol = (boundValue "PROTO" parts).getD acc.protocol ∧
    (parts.foldl scanPart acc).dest_port =
      (match boundValue "DPT" parts with
       | some v => parseU16 v
       | none => acc.dest_port) := by
  induction parts generalizing acc with
  | nil => simp [boundValue]
  | cons p rest ih =>
    obtain ⟨ih1, ih2, ih3, ih4⟩ := ih (scanPart acc p)
    obtain ⟨s1, s2, s3, s4⟩ := scanPart_fields acc p
    refine ⟨?_, ?_, ?_, ?_⟩ <;> simp only [List.foldl_cons, boundValue]
    · rw [ih1, s1]
      rcases boundValue "SRC" rest with _ | w <;> simp
    · rw [ih2, s2]
      rcases boundValue "DST" rest with _ | w <;> simp
    · rw [ih3, s3]
      rcases boundValue "PROTO" rest with _ | w <;> simp
    · rw [ih4]
      rcases boundValue "DPT" rest with _ | w <;> simp [s4]

/-! ## Characterization of the per-line parser -/

/-- The scan state after processing all tokens of a line. -/
def scannedState (line : String) : ScanState :=
  (splitWhitespace line).foldl scanPart initScan

/-- Let-free restatement of `parseLine` (definitional). -/
theorem parseLine_eq (now : DateTime) (line : String) :
    parseLine now line =
      (if (!(containsSubstr line "kernel:") || !(containsSubstr line "DROP_IPV4")) = true then
        none
      else if (splitWhitespace line).length < 6 then none
      else if (scannedState line).source_ip ≠ "" ∧ (scannedState line).dest_ip ≠ "" ∧
          (scannedState line).protocol ≠ "" then
        some
          { timestamp := (parseTimestampUtc ((splitWhitespace line).getD 0 "")).getD now
            source_ip := (scannedState line).source_ip
            dest_ip := (scannedState line).dest_ip
            dest_port := (scannedState line).dest_port
            protocol := (scannedState line).protocol
            interface := (scannedState line).interface
            chain := trimTrailingColons ((splitWhitespace line).getD 3 "")
            action := "DENIED" }
      else none) := rfl

/-- The fields of the scan state of a line, in terms of `boundValue`. -/
theorem scannedState_fields (line : String) :
    (scannedState line).source_ip = (boundValue "SRC" (splitWhitespace line)).getD "" ∧
    (scannedState line).dest_ip = (boundValue "DST" (splitWhitespace line)).getD "" ∧
    (scannedState line).protocol = (boundValue "PROTO" (splitWhitespace line)).getD "" ∧
    (scannedState line).dest_port =
      (match boundValue "DPT" (splitWhitespace line) with
       | some v => parseU16 v
       | none => none) := by
  have h := foldl_scanPart_fields (splitWhitespace line) initScan
  simpa [scannedState, initScan] using h

/-! ## Claim theorems: the line parser -/

/-- C3: for every line that lacks the kernel-origin marker, lacks the
DROP_IPV4 marker, or splits into fewer than 6 whitespace-separated
tokens, parse returns no record (silently skipped, not an error). -/
theorem parseLine_skips_non_candidates (now : DateTime) (line : String)
    (h : containsSubstr line "kernel:" = false ∨
         containsSubstr line "DROP_IPV4" = false ∨
         (splitWhitespace line).length < 6) :
    parseLine now line = none := by
  rw [parseLine_eq]
  rcases h with h | h | h
  · simp [h]
  · simp [h]
  · by_cases hk : containsSubstr line "kernel:" = true <;>
      by_cases hd : containsSubstr line "DROP_IPV4" = true <;>
      simp [hk, hd, h]

/-- Witness for C3 at a concrete line without the markers. -/
theorem parseLine_skips_non_candidates_witness :
    containsSubstr "hello world" "kernel:" = false ∧
    parseLine ⟨0, 0⟩ "hello world" = none :=
  ⟨by decide, parseLine_skips_non_candidates ⟨0, 0⟩ "hello world" (Or.inl (by decide))⟩

/-- C2: for every candidate line (both markers present, at least 6
tokens), parse emits a record if and only if the values bound to SRC,
DST and PROTO are all non-empty after scanning the KEY=VALUE tokens;
every emitted record has its action fixed to "DENIED". -/
theorem parseLine_emits_iff_required_fields (now : DateTime) (line : String)
    (hk : containsSubstr line "kernel:" = true)
    (hd : containsSubstr line "DROP_IPV4" = true)
    (hlen : 6 ≤ (splitWhitespace line).length) :
    ((parseLine now line).isSome = true ↔
      ((boundValue "SRC" (splitWhitespace line)).getD "" ≠ "" ∧
       (boundValue "DST" (splitWhitespace line)).getD "" ≠ "" ∧
       (boundValue "PROTO" (splitWhitespace line)).getD "" ≠ "")) ∧
    (∀ e, parseLine now line = some e → e.action = "DENIED") := by
  have hlen' : ¬ (splitWhitespace line).length < 6 := Nat.not_lt.2 hlen
  obtain ⟨f1, f2, f3, f4⟩ := scannedState_fields line
  rw [parseLine_eq]
  rw [if_neg (by simp [hk, hd]), if_neg hlen']
  constructor
  · split
    · rename_i hcond
      rw [f1, f2, f3] at hcond
      simpa using hcond
    · rename_i hcond
      rw [f1, f2, f3] at hcond
      simpa using hcond
  · intro e he
    split at he
    · injection he with h
      exact h ▸ rfl
    · cases he

/-- Witness for C2 at the specification's example line. -/
theorem parseLine_emits_iff_required_fields_witness :
    containsSubstr sampleLine "kernel:" = true ∧
    containsSubstr sampleLine "DROP_IPV4" = true ∧
    6 ≤ (splitWhitespace sampleLine).length ∧
    ((parseLine ⟨0, 0⟩ sampleLine).isSome = true ↔
      ((boundValue "SRC" (splitWhitespace sampleLine)).getD "" ≠ "" ∧
       (boundValue "DST" (splitWhitespace sampleLine)).getD "" ≠ "" ∧
       (boundValue "PROTO" (splitWhitespace sampleLine)).getD "" ≠ "")) ∧
    (∀ e, parseLine ⟨0, 0⟩ sampleLine = some e → e.action = "DENIED") := by
  refine ⟨by decide, by decide, by decide, ?_, ?_⟩
  · exact (parseLine_emits_iff_required_fields ⟨0, 0⟩ sampleLine (by decide) (by decide)
      (by decide)).1
  · exact (parseLine_emits_iff_required_fields ⟨0, 0⟩ sampleLine (by decide) (by decide)
      (by decide)).2

/-- C4: a candidate line whose required fields are bound non-empty but
whose DPT value does not parse as a u16 still yields a record, with the
destination port absent. -/
theorem parseLine_bad_dpt_port_absent (now : DateTime) (line : String)
    (hk : containsSubstr line "kernel:" = true)
    (hd : containsSubstr line "DROP_IPV4" = true)
    (hlen : 6 ≤ (splitWhitespace line).length)
    (hsrc : (boundValue "SRC" (splitWhitespace line)).getD "" ≠ "")
    (hdst : (boundValue "DST" (splitWhitespace line)).getD "" ≠ "")
    (hproto : (boundValue "PROTO" (splitWhitespace line)).getD "" ≠ "")
    (v : String)
    (hdpt : boundValue "DPT" (splitWhitespace line) = some v)
    (hv : parseU16 v = none) :
    ∃ e, parseLine now line = some e ∧ e.dest_port = none := by
  obtain ⟨f1, f2, f3, f4⟩ := scannedState_fields line
  rw [parseLine_eq]
  rw [if_neg (by simp [hk, hd]), if_neg (Nat.not_lt.2 hlen),
    if_pos (by rw [f1, f2, f3]; exact ⟨hsrc, hdst, hproto⟩)]
  refine ⟨_, rfl, ?_⟩
  rw [f4, hdpt]
  exact hv

/-- Witness for C4 at the example line with `DPT=99999`. -/
theorem parseLine_bad_dpt_port_absent_witness :
    boundValue "DPT" (splitWhitespace sampleLineBadPort) = some "99999" ∧
    parseU16 "99999" = none ∧
    (∃ e, parseLine ⟨0, 0⟩ sampleLineBadPort = some e ∧ e.dest_port = none) :=
  ⟨by decide, by decide,
    parseLine_bad_dpt_port_absent ⟨0, 0⟩ sampleLineBadPort (by decide) (by decide) (by decide)
      (by decide) (by decide) (by decide) "99999" (by decide) (by decide)⟩

/-- C1 (counterexample): the parser is not a pure function of the line
alone: when the timestamp token fails to parse, the emitted record
carries the current wall-clock time, so two invocations at different
times differ. -/
theorem parseLine_not_pure_counterexample :
    parseLine ⟨0, 0⟩ sampleLineBadTime ≠ parseLine ⟨3600, 0⟩ sampleLineBadTime := by
  decide

/-- C1 (amended): the parser is a pure function of the line and the
current time; the Option-ness and every field except the timestamp
depend on the line alone, and whenever the timestamp token parses the
whole result is independent of the current time. -/
theorem parseLine_deterministic_amended (line : String) (now1 now2 : DateTime) :
    (parseLine now1 line).map stripTimestamp = (parseLine now2 line).map stripTimestamp ∧
    ((parseTimestampUtc ((splitWhitespace line).getD 0 "")).isSome = true →
      parseLine now1 line = parseLine now2 line) := by
  rw [parseLine_eq now1 line, parseLine_eq now2 line]
  by_cases hg : (!(containsSubstr line "kernel:") || !(containsSubstr line "DROP_IPV4")) = true
  · rw [if_pos hg, if_pos hg]
    exact ⟨rfl, fun _ => rfl⟩
  · rw [if_neg hg, if_neg hg]
    by_cases hlen : (splitWhitespace line).length < 6
    · rw [if_pos hlen, if_pos hlen]
      exact ⟨rfl, fun _ => rfl⟩
    · rw [if_neg hlen, if_neg hlen]
      rcases parseTimestampUtc ((splitWhitespace line).getD 0 "") with _ | ts
      · constructor
        · split
          · simp [stripTimestamp]
          · rfl
        · intro hs
          simp at hs
      · exact ⟨rfl, fun _ => rfl⟩

/-- Witness for the amended C1 at the example line, whose timestamp
parses: the result is then independent of the wall clock. -/
theorem parseLine_deterministic_amended_witness :
    (parseTimestampUtc ((splitWhitespace sampleLine).getD 0 "")).isSome = true ∧
    parseLine ⟨0, 0⟩ sampleLine = parseLine ⟨12345, 6⟩ sampleLine :=
  ⟨by decide,
    (parseLine_deterministic_amended sampleLine ⟨0, 0⟩ ⟨12345, 6⟩).2 (by decide)⟩

/-! ## Claim theorems: the aggregator -/

theorem hour_lt_24 (dt : DateTime) : dt.hour < 24 := by
  unfold DateTime.hour
  omega

/-- C5: analyze is total: over the empty sequence the total is 0 and
every distribution (and the top list) is empty; over any sequence of N
records the total is N and the protocol counts sum to N. -/
theorem analyzeEntries_total_and_protocol_sum (entries : List IptablesEntry)
    (destEnum : List (String × Nat)) (_h : destEnum.Perm (destIpCounts entries)) :
    ((analyzeEntries [] []).total_denials = 0 ∧
     (analyzeEntries [] []).top_dest_ips = [] ∧
     (analyzeEntries [] []).protocol_distribution = [] ∧
     (analyzeEntries [] []).port_distribution = [] ∧
     (analyzeEntries [] []).chain_distribution = [] ∧
     (analyzeEntries [] []).hourly_distribution = []) ∧
    (analyzeEntries entries destEnum).total_denials = entries.length ∧
    sumValues (analyzeEntries entries destEnum).protocol_distribution = entries.length := by
  refine ⟨⟨rfl, rfl, rfl, rfl, rfl, rfl⟩, rfl, ?_⟩
  show sumValues (countsOf (entries.map (fun e => e.protocol))) = entries.length
  rw [sumValues_countsOf, List.length_map]

/-- Witness for C5 at two concrete records. -/
theorem analyzeEntries_total_and_protocol_sum_witness :
    (destIpCounts [sampleEntryA, sampleEntryB]).Perm (destIpCounts [sampleEntryA, sampleEntryB]) ∧
    (analyzeEntries [sampleEntryA, sampleEntryB]
        (destIpCounts [sampleEntryA, sampleEntryB])).total_denials =
      [sampleEntryA, sampleEntryB].length ∧
    sumValues (analyzeEntries [sampleEntryA, sampleEntryB]
        (destIpCounts [sampleEntryA, sampleEntryB])).protocol_distribution =
      [sampleEntryA, sampleEntryB].length :=
  ⟨List.Perm.refl _,
    (analyzeEntries_total_and_protocol_sum [sampleEntryA, sampleEntryB] _ (List.Perm.refl _)).2⟩

/-- C6: for every input and every legal enumeration of the counting
map, the top-destinations list is sorted non-increasing by count:
every adjacent pair satisfies earlier.count ≥ later.count. -/
theorem top_dest_ips_sorted_desc (entries : List IptablesEntry)
    (destEnum : List (String × Nat)) (_h : destEnum.Perm (destIpCounts entries)) :
    List.Chain' (fun a b => b.2 ≤ a.2) (analyzeEntries entries destEnum).top_dest_ips :=
  List.Pairwise.chain' (sortByCountDesc_pairwise destEnum)

/-- Witness for C6 at two concrete records. -/
theorem top_dest_ips_sorted_desc_witness :
    (destIpCounts [sampleEntryA, sampleEntryB]).Perm (destIpCounts [sampleEntryA, sampleEntryB]) ∧
    List.Chain' (fun a b => b.2 ≤ a.2)
      (analyzeEntries [sampleEntryA, sampleEntryB]
        (destIpCounts [sampleEntryA, sampleEntryB])).top_dest_ips :=
  ⟨List.Perm.refl _, top_dest_ips_sorted_desc _ _ (List.Perm.refl _)⟩

/-- C7 (counterexample): ties need not appear in first-seen order.  The
first-seen order of the destinations of `[sampleEntryA, sampleEntryB]`
is `[10.0.0.1, 10.0.0.2]` (the key order of `destIpCounts`), but under
the legal `HashMap` enumeration `[(10.0.0.2, 1), (10.0.0.1, 1)]` (a
permutation of the map contents) the produced top list keeps the
enumeration order, which differs from first-seen order. -/
theorem top_dest_tie_first_seen_counterexample :
    [("10.0.0.2", 1), ("10.0.0.1", 1)].Perm (destIpCounts [sampleEntryA, sampleEntryB]) ∧
    (destIpCounts [sampleEntryA, sampleEntryB]).map Prod.fst = ["10.0.0.1", "10.0.0.2"] ∧
    (analyzeEntries [sampleEntryA, sampleEntryB]
        [("10.0.0.2", 1), ("10.0.0.1", 1)]).top_dest_ips =
      [("10.0.0.2", 1), ("10.0.0.1", 1)] ∧
    (analyzeEntries [sampleEntryA, sampleEntryB]
        [("10.0.0.2", 1), ("10.0.0.1", 1)]).top_dest_ips.map Prod.fst ≠
      (destIpCounts [sampleEntryA, sampleEntryB]).map Prod.fst := by
  refine ⟨by decide, by decide, by decide, by decide⟩

/-- C7 (amended): among entries of equal count, the top list retains
the relative order of the map enumeration the sort consumed (the sort
is stable); since a `HashMap`'s enumeration order is unspecified,
first-seen order is not guaranteed. -/
theorem top_dest_ips_tie_stable_in_enum (entries : List IptablesEntry)
    (destEnum : List (String × Nat)) (_h : destEnum.Perm (destIpCounts entries)) (c : Nat) :
    (analyzeEntries entries destEnum).top_dest_ips.filter (fun q => q.2 == c) =
      destEnum.filter (fun q => q.2 == c) :=
  filter_sortByCountDesc destEnum c

/-- Witness for the amended C7. -/
theorem top_dest_ips_tie_stable_in_enum_witness :
    (destIpCounts [sampleEntryA, sampleEntryB]).Perm (destIpCounts [sampleEntryA, sampleEntryB]) ∧
    (analyzeEntries [sampleEntryA, sampleEntryB]
        (destIpCounts [sampleEntryA, sampleEntryB])).top_dest_ips.filter (fun q => q.2 == 1) =
      (destIpCounts [sampleEntryA, sampleEntryB]).filter (fun q => q.2 == 1) :=
  ⟨List.Perm.refl _, top_dest_ips_tie_stable_in_enum _ _ (List.Perm.refl _) 1⟩

/-- C10: every key of the hourly distribution lies in 0..23, and the
hourly counts sum to the total count. -/
theorem hourly_distribution_keys_and_sum (entries : List IptablesEntry)
    (destEnum : List (String × Nat)) :
    (∀ h ∈ ((analyzeEntries entries destEnum).hourly_distribution).map Prod.fst, h < 24) ∧
    sumValues (analyzeEntries entries destEnum).hourly_distribution =
      (analyzeEntries entries destEnum).total_denials := by
  constructor
  · intro h hmem
    have hmem' : h ∈ (countsOf (entries.map (fun e => e.timestamp.hour))).map Prod.fst := hmem
    have hin := (mem_keys_countsOf _ h).1 hmem'
    rw [List.mem_map] at hin
    obtain ⟨e, _, rfl⟩ := hin
    exact hour_lt_24 e.timestamp
  · show sumValues (countsOf (entries.map (fun e => e.timestamp.hour))) = entries.length
    rw [sumValues_countsOf, List.length_map]

/-- Witness for C10 at one concrete record (hour 0). -/
theorem hourly_distribution_keys_and_sum_witness :
    0 ∈ ((analyzeEntries [sampleEntryA] []).hourly_distribution).map Prod.fst ∧ (0 : Nat) < 24 :=
  ⟨by decide, (hourly_distribution_keys_and_sum [sampleEntryA] []).1 0 (by decide)⟩

/-! ## Claim theorems: the text renderer -/

theorem filterMap_ite_eq_map_filter {β : Type} (l : List Nat) (p : Nat → Prop)
    [DecidablePred p] (g : Nat → β) :
    (l.filterMap (fun h => if p h then some (g h) else none)) =
      (l.filter (fun h => decide (p h))).map g := by
  induction l with
  | nil => rfl
  | cons x xs ih =>
    by_cases hx : p x <;> simp [List.filterMap_cons, List.filter_cons, hx, ih]

/-- C8: text rendering is the header, then the destination lines, then
a tail that does not depend on `top_n`; the destination lines number
exactly `min top_n (number of distinct destination addresses)`; with
`top_n = 0` there are no destination lines. -/
theorem printTextReport_top_section_bound (entries : List IptablesEntry)
    (destEnum : List (String × Nat)) (h : destEnum.Perm (destIpCounts entries)) (k : Nat) :
    printTextReport (analyzeEntries entries destEnum) k =
      headerLines (analyzeEntries entries destEnum) k ++
        topDestLines (analyzeEntries entries destEnum) k ++
        afterTopLines (analyzeEntries entries destEnum) ∧
    (topDestLines (analyzeEntries entries destEnum) k).length =
      min k (distinctDestCount entries) ∧
    topDestLines (analyzeEntries entries destEnum) 0 = [] := by
  refine ⟨rfl, ?_, rfl⟩
  rw [topDestLines, List.length_map, List.length_take]
  show k ⊓ (sortByCountDesc destEnum).length = min k (distinctDestCount entries)
  rw [sortByCountDesc_length, h.length_eq, destIpCounts, length_countsOf_eq_length_dedup]
  rfl

/-- Witness for C8 at two concrete records with `top_n = 1`. -/
theorem printTextReport_top_section_bound_witness :
    (destIpCounts [sampleEntryA, sampleEntryB]).Perm (destIpCounts [sampleEntryA, sampleEntryB]) ∧
    (topDestLines (analyzeEntries [sampleEntryA, sampleEntryB]
        (destIpCounts [sampleEntryA, sampleEntryB])) 1).length =
      min 1 (distinctDestCount [sampleEntryA, sampleEntryB]) :=
  ⟨List.Perm.refl _,
    (printTextReport_top_section_bound [sampleEntryA, sampleEntryB] _ (List.Perm.refl _) 1).2.1⟩

/-- C9: the hourly section lists exactly the hours of `0..23` whose
count is non-zero, in ascending order, each with its count; an hour
with a zero count (absent from the map) is never printed. -/
theorem hourly_section_sorted_and_nonzero (entries : List IptablesEntry)
    (destEnum : List (String × Nat)) :
    hourlyLines (analyzeEntries entries destEnum) =
      ((List.range 24).filter
          (fun h => decide (0 < (entries.map (fun e => e.timestamp.hour)).count h))).map
        (fun h => hourLine h ((entries.map (fun e => e.timestamp.hour)).count h)) ∧
    List.Pairwise (fun a b => a < b) (hourlyHours (analyzeEntries entries destEnum)) ∧
    (∀ h, h ∈ hourlyHours (analyzeEntries entries destEnum) ↔
      (h < 24 ∧ 0 < (entries.map (fun e => e.timestamp.hour)).count h)) := by
  refine ⟨?_, ?_, ?_⟩
  · rw [hourlyLines]
    rw [List.filterMap_congr (g := fun h =>
      if 0 < (entries.map (fun e => e.timestamp.hour)).count h then
        some (hourLine h ((entries.map (fun e => e.timestamp.hour)).count h))
      else none) ?_]
    · exact filterMap_ite_eq_map_filter (List.range 24) _ _
    · intro x _
      show (lookupKey x (countsOf (entries.map (fun e => e.timestamp.hour)))).map
          (hourLine x) = _
      rw [lookupKey_countsOf]
      by_cases hc : (entries.map (fun e => e.timestamp.hour)).count x = 0
      · simp [hc]
      · simp [hc, Nat.pos_of_ne_zero hc]
  · exact List.Pairwise.sublist (List.filter_sublist _) (List.pairwise_lt_range 24)
  · intro h
    rw [hourlyHours, List.mem_filter, List.mem_range]
    have : (analyzeEntries entries destEnum).hourly_distribution =
        countsOf (entries.map (fun e => e.timestamp.hour)) := rfl
    rw [this, lookupKey_countsOf]
    by_cases hc : (entries.map (fun e => e.timestamp.hour)).count h = 0
    · simp [hc]
    · simp only [hc, if_neg, Option.isSome_some, decide_eq_true_eq]
      constructor
      · intro hh
        exact ⟨hh.1, Nat.pos_of_ne_zero hc⟩
      · intro hh
        exact ⟨hh.1, rfl⟩
